import Mathlib

/-!
Verification of the fixed-block allocator `fb_alloc` (src/fb_alloc.h).

Shallow embedding conventions:
* Addresses are `Nat`; the null pointer is `0`; the process heap is a bump
  allocator (`hp` is the next fresh address, kept ≥ 1 so fresh buffers are
  never null).  `sizeof(char*) = 8`, `sizeof(int) = 4`.
* The heap is split into two typed views: `mem : Nat → Nat` holds the
  pointer-sized cells (free-list links, chunk back-links, the global chunk
  cache links) and `ints : Nat → Int` holds the `int` cells the constructor
  allocates for `refcount_` and `nof_allocs_`.  The two views are only ever
  used at disjoint addresses (each address is bump-allocated once).
* A handle (`fb_alloc` object) is the record of its member fields; the
  per-configuration static data (`global_chunk_head_`,
  `nof_allocated_chunks_`, `nof_free_chunks_`) lives in `GlobalState`.
* `throw std::bad_alloc()` is modelled by `Except.error ()`: the code throws
  before performing any side effect, so no post-throw state is produced.
* The unbounded pointer-chasing loops (`clean`, `check`, the destructor /
  `release` paths through them) are modelled as small-step inductive
  relations, one constructor per loop iteration, exactly following the loop
  bodies.
-/

/-- Pointer-cell store update (an 8-byte store of a pointer value). -/
def upd (m : Nat → Nat) (a v : Nat) : Nat → Nat :=
  fun x => if x = a then v else m x

/-- Int-cell store update (a store through an `int*`). -/
def updI (m : Nat → Int) (a : Nat) (v : Int) : Nat → Int :=
  fun x => if x = a then v else m x

/-- Per-configuration global state: the process heap plus the static members
`global_chunk_head_`, `nof_allocated_chunks_`, `nof_free_chunks_` of the
`fb_alloc` instantiation. -/
structure GlobalState where
  mem : Nat → Nat
  ints : Nat → Int
  hp : Nat
  gHead : Nat
  nAlloc : Int
  nFree : Int

/-- One `fb_alloc` handle: the member fields `nof_elmts_`, `elsize_`,
`alignment_`, `pool_head_`, `chunk_head_`, `refcount_`, `nof_allocs_`,
together with `sizeof(T)` (a property of the template argument, needed by
the bulk branch of `allocate`). -/
structure Handle where
  sizeofT : Nat
  nof_elmts : Nat
  elsize : Nat
  alignment : Nat
  pool_head : Nat
  chunk_head : Nat
  refcountPtr : Nat
  nofAllocsPtr : Nat

/-- The constructor's alignment loop
`for( ; elsize_ < elsize_ + alignment_; ++elsize_ ) if (elsize_ % alignment_ == 0) break;`.
The guard `elsize_ < elsize_ + alignment_` never fails for `alignment ≥ 1`
(no overflow in `Nat`), and among any `a` consecutive values there is a
multiple of `a`, so the loop always breaks within `a` iterations; `fuel = a`
therefore reproduces the loop exactly for every `a ≥ 1`. -/
def alignSize (a : Nat) : Nat → Nat → Nat
  | _, 0 => 0
  | e, fuel + 1 => if e % a = 0 then e else alignSize a (e + 1) fuel

/-- Element size computed by the constructor: the alignment loop started at
`sizeof(T)`. -/
def calcElsize (s a : Nat) : Nat :=
  if a = 0 then s else alignSize a s a

/-- Independent construction `fb_alloc()`: computes `elsize_`, leaves the
pool and chunk registry empty, allocates and initializes the two counters
(`new int` twice, 4 bytes each). -/
def fb_alloc_independent (s nofe al : Nat) (g : GlobalState) : Handle × GlobalState :=
  let es := calcElsize s al
  let rp := g.hp
  let np := g.hp + 4
  ({ sizeofT := s, nof_elmts := nofe, elsize := es, alignment := al,
     pool_head := 0, chunk_head := 0, refcountPtr := rp, nofAllocsPtr := np },
   { g with hp := g.hp + 8, ints := updI (updI g.ints rp 1) np 0 })

/-- Sharing construction `fb_alloc(const fb_alloc<U>&)`: if the computed
element size equals the source's, adopt the source's pool, registry and
counters and increment the shared reference count; otherwise start an
independent group whose counters come from `new (std::nothrow) int` — the
booleans `failRC` / `failNA` are the heap-failure oracle for those two
nothrow requests (`true` = the request returned null). -/
def fb_alloc_sharing (s : Nat) (src : Handle) (g : GlobalState)
    (failRC failNA : Bool) : Handle × GlobalState :=
  let es := calcElsize s src.alignment
  if es = src.elsize then
    ({ sizeofT := s, nof_elmts := src.nof_elmts, elsize := es, alignment := src.alignment,
       pool_head := src.pool_head, chunk_head := src.chunk_head,
       refcountPtr := src.refcountPtr, nofAllocsPtr := src.nofAllocsPtr },
     { g with ints := updI g.ints src.refcountPtr (g.ints src.refcountPtr + 1) })
  else
    let rp := if failRC then 0 else g.hp
    let g1 := if failRC then g else { g with hp := g.hp + 4, ints := updI g.ints g.hp 1 }
    let np := if failNA then 0 else g1.hp
    let g2 := if failNA then g1 else { g1 with hp := g1.hp + 4, ints := updI g1.ints g1.hp 0 }
    ({ sizeofT := s, nof_elmts := src.nof_elmts, elsize := es, alignment := src.alignment,
       pool_head := 0, chunk_head := 0, refcountPtr := rp, nofAllocsPtr := np }, g2)

/-- Member `allocate_chunk()`: pop the global chunk cache if non-empty,
otherwise obtain `elsize_*nof_elmts_ + sizeof(char*)` fresh zero-filled
bytes from the heap and count the creation. -/
def allocate_chunk (h : Handle) (g : GlobalState) : Nat × GlobalState :=
  if g.gHead = 0 then
    (g.hp,
     { g with hp := g.hp + (h.elsize * h.nof_elmts + 8),
              nAlloc := g.nAlloc + 1,
              mem := fun a =>
                if g.hp ≤ a ∧ a < g.hp + (h.elsize * h.nof_elmts + 8) then 0 else g.mem a })
  else
    (g.gHead, { g with nFree := g.nFree - 1, gHead := g.mem g.gHead })

/-- Member `deallocate_chunk(char* p)`: push the buffer onto the global
chunk cache through its first word. -/
def deallocate_chunk (p : Nat) (g : GlobalState) : GlobalState :=
  { g with mem := upd g.mem p g.gHead, gHead := p, nFree := g.nFree + 1 }

/-- One run of `k` consecutive unrolled statements
`((alloc_link*)p)->next_ = (alloc_link*)(p + elsize_); p += elsize_;`,
returned as the list of (address, stored value) pointer writes. -/
def duffRounds (e : Nat) : Nat → Nat → List (Nat × Nat)
  | _, 0 => []
  | p, k + 1 => (p, p + e) :: duffRounds e (p + e) k

/-- The `do { ... } while ( --nn > 0 )` of the unrolled linking loop: the
body always runs once (`k` statements on entry through the switch label,
8 on every later pass); with `nn` a non-negative `int`, `--nn > 0` continues
exactly while `nn ≥ 2`. -/
def duffLoop (e : Nat) : Nat → Nat → Nat → List (Nat × Nat)
  | p, k, 0 => duffRounds e p k
  | p, k, 1 => duffRounds e p k
  | p, k, nn + 2 => duffRounds e p k ++ duffLoop e (p + k * e) 8 (nn + 1)

/-- All pointer writes performed by the `#else` (Duff's-device) linking code
of `grow()`: `nn = ((nof_elmts_-1) + 7)/8`, entry through
`switch ((nof_elmts_-1) % 8)` (case 0 enters at the top of the body, i.e. 8
statements), followed by the final `((alloc_link*)p)->next_ = 0;` at the
position `p` has reached — one element advance per executed statement. -/
def duffLinkWrites (start e nof : Nat) : List (Nat × Nat) :=
  let r := (nof - 1) % 8
  let ws := duffLoop e start (if r = 0 then 8 else r) ((nof - 1 + 7) / 8)
  ws ++ [(start + ws.length * e, 0)]

/-- The `#if 0` straightforward linking loop
`for( p = start; p < last; p += elsize_ )` with `last = start +
(nof_elmts_-1)*elsize_`; the loop runs at most `nof` times (exactly
`nof - 1` for `elsize ≥ 1`), so `fuel = nof` reproduces it exactly. -/
def simpleLoopF (e : Nat) : Nat → Nat → Nat → List (Nat × Nat)
  | 0, _, _ => []
  | fuel + 1, p, last => if p < last then (p, p + e) :: simpleLoopF e fuel (p + e) last else []

/-- All pointer writes performed by the straightforward (`#if 0`) linking
code of `grow()`: the loop writes plus `((alloc_link*)last)->next_ = 0;`. -/
def simpleLinkWrites (start e nof : Nat) : List (Nat × Nat) :=
  simpleLoopF e nof start (start + (nof - 1) * e) ++ [(start + (nof - 1) * e, 0)]

/-- Apply a list of pointer writes to the pointer store, left to right. -/
def applyWrites (m : Nat → Nat) (ws : List (Nat × Nat)) : Nat → Nat :=
  ws.foldl (fun acc w => upd acc w.1 w.2) m

/-- Member `grow()`: dies with `bad_alloc` if either counter pointer is
null; otherwise acquires a chunk, links its trailing word to the old
registry head, makes it the new head, threads the free-list links with the
unrolled loop, and points `pool_head_` at the first block. -/
def fbGrow (h : Handle) (g : GlobalState) : Except Unit (Handle × GlobalState) :=
  if h.refcountPtr = 0 ∨ h.nofAllocsPtr = 0 then Except.error ()
  else
    let ac := allocate_chunk h g
    let start := ac.1
    let g1 := ac.2
    let g2 := { g1 with mem := upd g1.mem (start + h.elsize * h.nof_elmts) h.chunk_head }
    let g3 := { g2 with mem := applyWrites g2.mem (duffLinkWrites start h.elsize h.nof_elmts) }
    Except.ok ({ h with chunk_head := start, pool_head := start }, g3)

/-- Member `allocate(n)`: for `n == 1` pop the free list (growing first if
it is empty) and count the allocation; for `n != 1` bypass the pool and
take `n * sizeof(T)` bytes straight from `::operator new`. -/
def fbAllocate (h : Handle) (g : GlobalState) (n : Nat) :
    Except Unit (Nat × Handle × GlobalState) :=
  if n = 1 then
    match (if h.pool_head = 0 then fbGrow h g else Except.ok (h, g)) with
    | Except.error e => Except.error e
    | Except.ok (h1, g1) =>
        Except.ok (h1.pool_head,
          { h1 with pool_head := g1.mem h1.pool_head },
          { g1 with ints := updI g1.ints h1.nofAllocsPtr (g1.ints h1.nofAllocsPtr + 1) })
  else
    Except.ok (g.hp, h, { g with hp := g.hp + n * h.sizeofT })

/-- Member `deallocate(p, n)`: for `n == 1` push the block onto the free
list and count it back; for `n != 1` the buffer goes to `::operator delete`
(nothing in the modelled state changes). -/
def fbDeallocate (h : Handle) (g : GlobalState) (p : Nat) (n : Nat) :
    Handle × GlobalState :=
  if n = 1 then
    ({ h with pool_head := p },
     { g with mem := upd g.mem p h.pool_head,
              ints := updI g.ints h.nofAllocsPtr (g.ints h.nofAllocsPtr - 1) })
  else (h, g)

/-- Observer `refcount()`: 0 for a null counter pointer. -/
def refcountObs (h : Handle) (g : GlobalState) : Int :=
  if h.refcountPtr = 0 then 0 else g.ints h.refcountPtr

/-- Observer `nof_allocs()`: 0 for a null counter pointer. -/
def nofAllocsObs (h : Handle) (g : GlobalState) : Int :=
  if h.nofAllocsPtr = 0 then 0 else g.ints h.nofAllocsPtr

/-- Run `n` successive `allocate(1)` calls, collecting the returned
addresses in order. -/
def allocRun : Nat → Handle → GlobalState → Except Unit (List Nat × Handle × GlobalState)
  | 0, h, g => Except.ok ([], h, g)
  | n + 1, h, g =>
    match fbAllocate h g 1 with
    | Except.error e => Except.error e
    | Except.ok (p, h1, g1) =>
      match allocRun n h1 g1 with
      | Except.error e => Except.error e
      | Except.ok (l, h2, g2) => Except.ok (p :: l, h2, g2)

/-- Null-terminated singly linked list in the pointer store: from head `p`,
the successor of a node is the word at `p + stride` (`stride = 0` for lists
linked through the first word — the free list and the global chunk cache;
`stride = elsize_*nof_elmts_` for the chunk registry linked through the
trailing word). -/
inductive PtrList (m : Nat → Nat) (stride : Nat) : Nat → List Nat → Prop
  | nil : PtrList m stride 0 []
  | cons (p : Nat) (l : List Nat) : p ≠ 0 → PtrList m stride (m (p + stride)) l →
      PtrList m stride p (p :: l)

/-- The `while ( ptr != 0 )` loop of `check(p)`, one constructor per exit or
iteration: found when `pob` lies in `[ptr, ptr + (nof_elmts_-1)*elsize_]`,
otherwise follow the trailing link; result `false` at the null registry
end. -/
inductive CheckLoop (es nof : Nat) (m : Nat → Nat) (pob : Nat) : Nat → Bool → Prop
  | done : CheckLoop es nof m pob 0 false
  | found (ptr : Nat) : ptr ≠ 0 → ptr ≤ pob → pob ≤ ptr + (nof - 1) * es →
      CheckLoop es nof m pob ptr true
  | miss (ptr : Nat) (b : Bool) : ptr ≠ 0 → ¬ (ptr ≤ pob ∧ pob ≤ ptr + (nof - 1) * es) →
      CheckLoop es nof m pob (m (ptr + es * nof)) b → CheckLoop es nof m pob ptr b

/-- The `while ( ptr != 0 )` loop of `clean()`: read the trailing link of
the head chunk, retire the chunk with `deallocate_chunk`, continue from the
link; the relation connects the registry head and global state before the
loop with the (always 0) head and state after it. -/
inductive CleanLoop (stride : Nat) : Nat → GlobalState → Nat → GlobalState → Prop
  | nil (g : GlobalState) : CleanLoop stride 0 g 0 g
  | step (ch : Nat) (g g' : GlobalState) : ch ≠ 0 →
      CleanLoop stride (g.mem (ch + stride)) (deallocate_chunk ch g) 0 g' →
      CleanLoop stride ch g 0 g'

/-- The state reached by `clean()` when the registry holds exactly the
chunks `l` (in head order): fold of `deallocate_chunk` over `l`. -/
def cleanList : GlobalState → List Nat → GlobalState
  | g, [] => g
  | g, b :: rest => cleanList (deallocate_chunk b g) rest

/-- The destructor `~fb_alloc()`: nothing for a null counter pointer;
otherwise decrement the reference count, and when it reaches zero run
`clean()` and free the counters (freed `int` cells keep their last written
value in the model). -/
inductive DtorRel (h : Handle) : GlobalState → GlobalState → Prop
  | null (g : GlobalState) : h.refcountPtr = 0 → DtorRel h g g
  | dec (g : GlobalState) : h.refcountPtr ≠ 0 → g.ints h.refcountPtr ≠ 1 →
      DtorRel h g { g with ints := updI g.ints h.refcountPtr (g.ints h.refcountPtr - 1) }
  | last (g g' : GlobalState) : h.refcountPtr ≠ 0 → g.ints h.refcountPtr = 1 →
      CleanLoop (h.elsize * h.nof_elmts) h.chunk_head
        { g with ints := updI g.ints h.refcountPtr (g.ints h.refcountPtr - 1) } 0 g' →
      DtorRel h g g'

/-- Member `release()`: decrement the reference count; when it reaches zero
run `clean()` and re-initialize both counters (`*refcount_ = 1`,
`*nof_allocs_ = 0`) without freeing them. -/
inductive ReleaseRel : Handle → GlobalState → Handle → GlobalState → Prop
  | null (h : Handle) (g : GlobalState) : h.refcountPtr = 0 → ReleaseRel h g h g
  | dec (h : Handle) (g : GlobalState) : h.refcountPtr ≠ 0 → g.ints h.refcountPtr ≠ 1 →
      ReleaseRel h g h { g with ints := updI g.ints h.refcountPtr (g.ints h.refcountPtr - 1) }
  | last (h : Handle) (g g' : GlobalState) : h.refcountPtr ≠ 0 → g.ints h.refcountPtr = 1 →
      CleanLoop (h.elsize * h.nof_elmts) h.chunk_head
        { g with ints := updI g.ints h.refcountPtr (g.ints h.refcountPtr - 1) } 0 g' →
      ReleaseRel h g { h with pool_head := 0, chunk_head := 0 }
        { g' with ints := updI (updI g'.ints h.refcountPtr 1) h.nofAllocsPtr 0 }

/-- The state produced by `release()` on a group whose registry holds
exactly the chunks `l` and whose reference count is at 1. -/
def releaseList (h : Handle) (g : GlobalState) (l : List Nat) : GlobalState :=
  let gdec := { g with ints := updI g.ints h.refcountPtr (g.ints h.refcountPtr - 1) }
  let g1 := cleanList gdec l
  { g1 with ints := updI (updI g1.ints h.refcountPtr 1) h.nofAllocsPtr 0 }

/-- Pairwise disjointness of chunk buffers: each buffer occupies `sz` bytes
(`sz = elsize_*nof_elmts_ + sizeof(char*)`) and no buffer starts at the
null address. -/
def ChunksApart (sz : Nat) (l : List Nat) : Prop :=
  List.Pairwise (fun a b => a + sz ≤ b ∨ b + sz ≤ a) l ∧ ∀ b ∈ l, 1 ≤ b

/-- Groups reachable by handle-lifetime operations: an independent
construction makes a group with one handle; a sharing construction whose
computed element size matches adds a handle; destroying one of `n + 2`
sharing handles (all of which hold the same counter pointers, so the
representative's destructor step is the destroyed handle's) removes one. -/
inductive SharedGroup : Nat → Handle → GlobalState → Prop
  | init (s nofe al : Nat) (g0 : GlobalState) : 1 ≤ g0.hp →
      SharedGroup 1 (fb_alloc_independent s nofe al g0).1 (fb_alloc_independent s nofe al g0).2
  | share (n : Nat) (h : Handle) (g : GlobalState) (s : Nat) :
      SharedGroup n h g → calcElsize s h.alignment = h.elsize →
      SharedGroup (n + 1) (fb_alloc_sharing s h g false false).1
        (fb_alloc_sharing s h g false false).2
  | destroy (n : Nat) (h : Handle) (g g' : GlobalState) :
      SharedGroup (n + 2) h g → DtorRel h g g' → SharedGroup (n + 1) h g'

/-! ### Element-size computation (C2) -/

lemma alignSize_correct (a : Nat) (ha : 1 ≤ a) :
    ∀ fuel s, (a - s % a) % a < fuel →
      s ≤ alignSize a s fuel ∧ alignSize a s fuel % a = 0 ∧
        ∀ e, s ≤ e → e % a = 0 → alignSize a s fuel ≤ e := by
  intro fuel
  induction fuel with
  | zero => intro s hm; omega
  | succ f ih =>
    intro s hm
    by_cases hz : s % a = 0
    · have heq : alignSize a s (f + 1) = s := by simp [alignSize, hz]
      rw [heq]
      exact ⟨Nat.le_refl s, hz, fun e he _ => he⟩
    · have ha2 : 2 ≤ a := by
        by_cases h1 : a = 1
        · exact absurd (h1 ▸ Nat.mod_one s) hz
        · omega
      have hr : s % a < a := Nat.mod_lt s (by omega)
      have hsucc : (s + 1) % a = (s % a + 1) % a := by
        conv_lhs => rw [Nat.add_mod]
        rw [Nat.mod_eq_of_lt (show 1 < a by omega)]
      have hmnext : (a - (s + 1) % a) % a < f := by
        rcases Nat.lt_or_ge (s % a + 1) a with hlt | hge
        · rw [hsucc, Nat.mod_eq_of_lt hlt]
          have h1 : (a - s % a) % a = a - s % a := Nat.mod_eq_of_lt (by omega)
          have h2 : (a - (s % a + 1)) % a = a - (s % a + 1) := Nat.mod_eq_of_lt (by omega)
          omega
        · have heq : s % a + 1 = a := by omega
          rw [hsucc, heq, Nat.mod_self, Nat.sub_zero, Nat.mod_self]
          have h1 : (a - s % a) % a = a - s % a := Nat.mod_eq_of_lt (by omega)
          omega
      obtain ⟨h1, h2, h3⟩ := ih (s + 1) hmnext
      refine ⟨?_, ?_, ?_⟩
      · simpa only [alignSize, hz, if_neg, ite_false] using Nat.le_trans (Nat.le_succ s) h1
      · simpa only [alignSize, hz, if_neg, ite_false] using h2
      · intro e hse hea
        have hne : e ≠ s := fun h => hz (h ▸ hea)
        simpa only [alignSize, hz, if_neg, ite_false] using h3 e (by omega) hea

lemma calcElsize_correct (s a : Nat) (ha : 1 ≤ a) :
    s ≤ calcElsize s a ∧ calcElsize s a % a = 0 ∧
      ∀ e, s ≤ e → e % a = 0 → calcElsize s a ≤ e := by
  have h := alignSize_correct a ha a s (Nat.mod_lt _ (by omega))
  simpa only [calcElsize, if_neg (show a ≠ 0 by omega)] using h

/-- C2: for every native element size `s ≥ 1` and alignment `a ≥ 1`, the
constructor's element-size loop terminates (it is a total function here)
and stores the least `e ≥ s` with `e % a = 0`, which is what the `elsize()`
observer — the `elsize` field of the constructed handle — returns. -/
theorem elsize_least_aligned (s nofe al : Nat) (g : GlobalState)
    (_hs : 1 ≤ s) (ha : 1 ≤ al) :
    s ≤ (fb_alloc_independent s nofe al g).1.elsize ∧
      (fb_alloc_independent s nofe al g).1.elsize % al = 0 ∧
      ∀ e, s ≤ e → e % al = 0 → (fb_alloc_independent s nofe al g).1.elsize ≤ e := by
  have h := calcElsize_correct s al ha
  simpa only [fb_alloc_independent] using h

/-- Witness for C2 at `sizeof(T) = 3`, `alignment = 8`: the computed block
size is at least 3, is a multiple of 8, and is at most the aligned value
16. -/
theorem elsize_least_aligned_witness :
    3 ≤ (fb_alloc_independent 3 100 8 ⟨fun _ => 0, fun _ => 0, 1, 0, 0, 0⟩).1.elsize ∧
      (fb_alloc_independent 3 100 8 ⟨fun _ => 0, fun _ => 0, 1, 0, 0, 0⟩).1.elsize % 8 = 0 ∧
      (fb_alloc_independent 3 100 8 ⟨fun _ => 0, fun _ => 0, 1, 0, 0, 0⟩).1.elsize ≤ 16 := by
  obtain ⟨h1, h2, h3⟩ :=
    elsize_least_aligned 3 100 8 ⟨fun _ => 0, fun _ => 0, 1, 0, 0, 0⟩ (by decide) (by decide)
  exact ⟨h1, h2, h3 16 (by decide) (by decide)⟩

/-! ### The two linking loops of `grow()` (C1) -/

lemma duffRounds_append (e : Nat) :
    ∀ a b p, duffRounds e p (a + b) = duffRounds e p a ++ duffRounds e (p + a * e) b := by
  intro a
  induction a with
  | zero => intro b p; simp [duffRounds]
  | succ a ih =>
    intro b p
    rw [Nat.add_right_comm]
    show (p, p + e) :: duffRounds e (p + e) (a + b) = _
    rw [ih b (p + e)]
    simp [duffRounds, Nat.succ_mul]
    ring_nf

lemma duffRounds_length (e : Nat) : ∀ k p, (duffRounds e p k).length = k := by
  intro k
  induction k with
  | zero => intro p; rfl
  | succ k ih => intro p; simp [duffRounds, ih]

lemma duffLoop_eq_rounds (e : Nat) :
    ∀ nn p k, duffLoop e p k (nn + 1) = duffRounds e p (k + 8 * nn) := by
  intro nn
  induction nn with
  | zero => intro p k; simp [duffLoop]
  | succ nn ih =>
    intro p k
    show duffRounds e p k ++ duffLoop e (p + k * e) 8 (nn + 1) = _
    rw [ih (p + k * e) 8, ← duffRounds_append]
    congr 1
    ring

lemma simpleLoopF_eq_rounds (e : Nat) (he : 1 ≤ e) :
    ∀ K fuel p, K ≤ fuel → simpleLoopF e fuel p (p + K * e) = duffRounds e p K := by
  intro K
  induction K with
  | zero =>
    intro fuel p _
    cases fuel with
    | zero => rfl
    | succ f => simp [simpleLoopF, duffRounds]
  | succ K ih =>
    intro fuel p hK
    cases fuel with
    | zero => omega
    | succ f =>
      have hlt : p < p + (K + 1) * e := by
        have : 1 ≤ (K + 1) * e := Nat.le_trans he (Nat.le_mul_of_pos_left e (Nat.succ_pos K))
        omega
      have harith : p + (K + 1) * e = (p + e) + K * e := by ring
      simp only [simpleLoopF, if_pos hlt, duffRounds]
      rw [harith, ih f (p + e) (by omega)]

/-- The unrolled (Duff's-device) linking loop computes exactly the writes of
the straightforward `#if 0` loop for every `elsize ≥ 1` and every
`nof_elmts ≥ 2` — the equivalence the unrolling was meant to preserve. -/
theorem duffLinkWrites_eq_simple (start e nof : Nat) (he : 1 ≤ e) (hn : 2 ≤ nof) :
    duffLinkWrites start e nof = simpleLinkWrites start e nof := by
  have hK : 1 ≤ nof - 1 := by omega
  have hnn : (nof - 1 + 7) / 8 = ((nof - 1 + 7) / 8 - 1) + 1 := by omega
  have hcount : (if (nof - 1) % 8 = 0 then 8 else (nof - 1) % 8) + 8 * ((nof - 1 + 7) / 8 - 1)
      = nof - 1 := by
    by_cases hr : (nof - 1) % 8 = 0 <;> simp only [hr, if_pos, if_neg, ite_true, ite_false] <;> omega
  simp only [duffLinkWrites, simpleLinkWrites]
  rw [hnn, duffLoop_eq_rounds, hcount, duffRounds_length,
    simpleLoopF_eq_rounds e he (nof - 1) nof start (by omega)]

/-- C1 fails at `nof_elements = 1` (shown here with `elsize = 8`, chunk at
address 0): the `do`-`while` body of the unrolled loop executes once even
though `nn = 0`, so the unrolled loop performs nine link writes where the
straightforward loop performs one, and its write at address 64 lies beyond
the chunk, which ends at `0 + 8*1 + 8 = 16`. -/
theorem duffLinkWrites_overflows_one_block :
    duffLinkWrites 0 8 1 =
        [(0, 8), (8, 16), (16, 24), (24, 32), (32, 40), (40, 48), (48, 56), (56, 64), (64, 0)] ∧
      simpleLinkWrites 0 8 1 = [(0, 0)] ∧
      duffLinkWrites 0 8 1 ≠ simpleLinkWrites 0 8 1 ∧
      (64, 0) ∈ duffLinkWrites 0 8 1 ∧ ¬ (64 + 8 ≤ 0 + 8 * 1 + 8) := by
  refine ⟨by decide, by decide, by decide, by decide, by decide⟩

/-! ### Concrete states used by evaluation theorems and witnesses -/

/-- Pristine process state: zero-initialized memory views, bump heap
starting at address 1 (so no allocation is null), empty global chunk cache,
zero chunk counters. -/
def gInit : GlobalState := ⟨fun _ => 0, fun _ => 0, 1, 0, 0, 0⟩

/-- Fresh independent handle with `sizeof(T) = 8`, one block per chunk,
alignment 8, and the global state after its construction. -/
def hOne : Handle := (fb_alloc_independent 8 1 8 gInit).1

/-- The state accompanying `hOne`. -/
def gOne : GlobalState := (fb_alloc_independent 8 1 8 gInit).2

/-- Fresh independent handle with `sizeof(T) = 8`, four blocks per chunk,
alignment 8, and the global state after its construction. -/
def hFour : Handle := (fb_alloc_independent 8 4 8 gInit).1

/-- The state accompanying `hFour`. -/
def gFour : GlobalState := (fb_alloc_independent 8 4 8 gInit).2

/-! ### C3: distinct addresses from successive `allocate(1)` calls -/

set_option maxHeartbeats 4000000 in
/-- C3 fails at `nof_elements = 1` (a consequence of the `grow()` unrolled
loop writing links past the one-block chunk): starting from a fresh
independent handle (`sizeof(T) = 8`, alignment 8, one block per chunk,
pristine heap), ten successful `allocate(1)` calls return the addresses
`[9, 17, 25, 33, 41, 49, 57, 65, 73, 25]` — the 3rd and the 10th coincide
— even though `nof_allocs()` correctly reports 10. -/
theorem allocate_repeats_address_one_block :
    (allocRun 10 hOne gOne).toOption.map (fun r => r.1) =
        some [9, 17, 25, 33, 41, 49, 57, 65, 73, 25] ∧
      ¬ ([9, 17, 25, 33, 41, 49, 57, 65, 73, 25] : List Nat).Nodup ∧
      (allocRun 10 hOne gOne).toOption.map (fun r => nofAllocsObs r.2.1 r.2.2) = some 10 := by
  refine ⟨?_, by decide, ?_⟩ <;>
    simp [allocRun, fbAllocate, fbGrow, allocate_chunk, hOne, gOne, fb_alloc_independent,
      gInit, duffLinkWrites, duffLoop, duffRounds, applyWrites, upd, updI, calcElsize,
      alignSize, nofAllocsObs, Except.toOption]

set_option maxHeartbeats 4000000 in
/-- Sanity check that the duplicate above is the `nof_elements = 1` slip and
not a general defect: with four blocks per chunk the same ten allocations
return ten pairwise-distinct addresses. -/
theorem allocate_distinct_four_blocks :
    (allocRun 10 hFour gFour).toOption.map (fun r => r.1) =
        some [9, 17, 25, 33, 49, 57, 65, 73, 89, 97] ∧
      ([9, 17, 25, 33, 49, 57, 65, 73, 89, 97] : List Nat).Nodup ∧
      (allocRun 10 hFour gFour).toOption.map (fun r => nofAllocsObs r.2.1 r.2.2) = some 10 := by
  refine ⟨?_, by decide, ?_⟩ <;>
    simp [allocRun, fbAllocate, fbGrow, allocate_chunk, hFour, gFour, fb_alloc_independent,
      gInit, duffLinkWrites, duffLoop, duffRounds, applyWrites, upd, updI, calcElsize,
      alignSize, nofAllocsObs, Except.toOption]

/-! ### C4: LIFO reuse of a deallocated block -/

lemma allocate_one_ne_null (h : Handle) (g : GlobalState) (p : Nat)
    (hhp : 1 ≤ g.hp)
    (hobt : (fbAllocate h g 1).toOption.map (fun r => r.1) = some p) : p ≠ 0 := by
  by_cases hph : h.pool_head = 0
  · by_cases hrc : h.refcountPtr = 0 ∨ h.nofAllocsPtr = 0
    · simp [fbAllocate, fbGrow, hph, hrc, Except.toOption] at hobt
    · by_cases hgh : g.gHead = 0
      · simp [fbAllocate, fbGrow, allocate_chunk, hph, hrc, hgh, Except.toOption] at hobt
        omega
      · simp [fbAllocate, fbGrow, allocate_chunk, hph, hrc, hgh, Except.toOption] at hobt
        omega
  · simp [fbAllocate, hph, Except.toOption] at hobt
    omega

/-- C4: if a block `p` was ever obtained from a successful `allocate(1)`
call (in a state whose heap pointer is valid), then on any group state,
`deallocate(p, 1)` immediately followed by `allocate(1)` returns `p` again:
the freed block goes to the head of the free list and the next single-block
allocation pops that head. -/
theorem deallocate_then_allocate_returns_same
    (ha : Handle) (ga : GlobalState) (p : Nat) (hhp : 1 ≤ ga.hp)
    (hobt : (fbAllocate ha ga 1).toOption.map (fun r => r.1) = some p) :
    ∀ h g, (fbAllocate (fbDeallocate h g p 1).1 (fbDeallocate h g p 1).2 1).toOption.map
        (fun r => r.1) = some p := by
  intro h g
  have hp0 : p ≠ 0 := allocate_one_ne_null ha ga p hhp hobt
  simp [fbAllocate, fbDeallocate, hp0, Except.toOption]

/-- Witness for C4: on the fresh four-block handle, `allocate(1)` returns
address 9; deallocating 9 and allocating again returns 9. -/
theorem deallocate_then_allocate_returns_same_witness :
    (fbAllocate (fbDeallocate hFour gFour 9 1).1 (fbDeallocate hFour gFour 9 1).2 1).toOption.map
        (fun r => r.1) = some 9 :=
  deallocate_then_allocate_returns_same hFour gFour 9 (by decide)
    (by simp [fbAllocate, fbGrow, allocate_chunk, hFour, gFour, fb_alloc_independent, gInit,
      duffLinkWrites, duffLoop, duffRounds, applyWrites, upd, updI, calcElsize, alignSize,
      Except.toOption])
    hFour gFour

/-! ### C9: bulk allocations bypass the pool -/

/-- Fresh independent handle with `sizeof(T) = 3`, alignment 8 (so the
computed block size is 8, strictly larger than the native size). -/
def hThree : Handle := (fb_alloc_independent 3 100 8 gInit).1

/-- The state accompanying `hThree`. -/
def gThree : GlobalState := (fb_alloc_independent 3 100 8 gInit).2

/-- C9 as stated is false: with `sizeof(T) = 3` and alignment 8 the Element
Size Calculator stores block size 8, yet `allocate(2)` advances the process
heap by `2 * sizeof(T) = 6` bytes, not `2 * element-size = 16` bytes — the
bulk branch requests `n*sizeof(T)`, not `n*elsize_`. -/
theorem bulk_allocate_bytes_counterexample :
    (fbAllocate hThree gThree 2).toOption.map (fun r => r.2.2.hp) = some (gThree.hp + 6) ∧
      hThree.elsize = 8 ∧ 2 * hThree.elsize = 16 ∧ (6 : Nat) ≠ 16 :=
  ⟨by decide, by decide, by decide, by decide⟩

/-- C9 amended: for every `n ≠ 1`, `allocate(n)` bypasses the pool —
it returns `n * sizeof(T)` fresh bytes straight from the process heap
(`::operator new (n*sizeof(T))`), and leaves the handle (free-list head,
chunk-registry head) and every other global component (pointer memory,
counters, global chunk cache head, chunk counts) unchanged. -/
theorem bulk_allocate_bypasses_pool (h : Handle) (g : GlobalState) (n : Nat) (hn : n ≠ 1) :
    fbAllocate h g n = Except.ok (g.hp, h, { g with hp := g.hp + n * h.sizeofT }) := by
  simp [fbAllocate, hn]

/-- Witness for the amended C9 at `n = 2` on the `sizeof(T) = 3` handle. -/
theorem bulk_allocate_bypasses_pool_witness :
    fbAllocate hThree gThree 2 =
      Except.ok (gThree.hp, hThree, { gThree with hp := gThree.hp + 2 * hThree.sizeofT }) :=
  bulk_allocate_bypasses_pool hThree gThree 2 (by decide)

/-! ### C10: null-counter groups cannot allocate -/

/-- C10: on a handle whose group carries null counters — as produced by the
tolerated sharing-construction failure path, which also leaves the free
list empty — every `allocate(1)` raises `bad_alloc` out of `grow()` before
any chunk is acquired (the model's error carries no successor state because
the throw precedes every side effect), so any number of attempts fails and
the free list can never become non-empty; and the failure path of the
element-size-mismatch sharing constructor indeed yields such a handle. -/
theorem null_counters_allocate_raises :
    (∀ h g, (h.refcountPtr = 0 ∨ h.nofAllocsPtr = 0) → h.pool_head = 0 →
        fbAllocate h g 1 = Except.error () ∧
          ∀ n, 1 ≤ n → allocRun n h g = Except.error ()) ∧
      ∀ s src g, calcElsize s src.alignment ≠ src.elsize →
        (fb_alloc_sharing s src g true true).1.refcountPtr = 0 ∧
          (fb_alloc_sharing s src g true true).1.nofAllocsPtr = 0 ∧
          (fb_alloc_sharing s src g true true).1.pool_head = 0 := by
  constructor
  · intro h g hc hpool
    have herr : fbAllocate h g 1 = Except.error () := by
      simp [fbAllocate, fbGrow, hpool, hc]
    refine ⟨herr, ?_⟩
    intro n hn
    match n, hn with
    | n + 1, _ => simp [allocRun, herr]
  · intro s src g hne
    simp [fb_alloc_sharing, hne]

/-- A handle produced by the failure path of the sharing constructor from
`hFour` with mismatched element size (`sizeof(U) = 9` aligns to 16 ≠ 8). -/
def hNull : Handle := (fb_alloc_sharing 9 hFour gFour true true).1

/-- The state accompanying `hNull`. -/
def gNull : GlobalState := (fb_alloc_sharing 9 hFour gFour true true).2

/-- Witness for C10: the concrete failed-sharing handle has null counters
and an empty free list, and `allocate(1)` on it raises the error. -/
theorem null_counters_allocate_raises_witness :
    fbAllocate hNull gNull 1 = Except.error () ∧
      allocRun 3 hNull gNull = Except.error () ∧
      hNull.refcountPtr = 0 ∧ hNull.nofAllocsPtr = 0 ∧ hNull.pool_head = 0 := by
  obtain ⟨h1, h2⟩ :=
    null_counters_allocate_raises.1 hNull gNull (Or.inl (by decide)) (by decide)
  obtain ⟨h3, h4, h5⟩ :=
    null_counters_allocate_raises.2 9 hFour gFour (by decide)
  exact ⟨h1, h2 3 (by decide), by decide, by decide, by decide⟩

/-! ### Pointer-list lemmas and the `clean()` loop (C5–C8 machinery) -/

lemma upd_at (m : Nat → Nat) (a v : Nat) : upd m a v a = v := by simp [upd]

lemma upd_away (m : Nat → Nat) (a v x : Nat) (hx : x ≠ a) : upd m a v x = m x := by
  simp [upd, hx]

lemma ptrList_upd (m : Nat → Nat) (stride a v : Nat) (hd : Nat) (l : List Nat)
    (hpl : PtrList m stride hd l) (hne : ∀ b ∈ l, b + stride ≠ a) :
    PtrList (upd m a v) stride hd l := by
  induction hpl with
  | nil => exact PtrList.nil
  | cons p l hp _ ih =>
    refine PtrList.cons p l hp ?_
    rw [upd_away m a v (p + stride) (hne p (List.mem_cons_self p l))]
    exact ih fun b hb => hne b (List.mem_cons_of_mem p hb)

lemma chunksApart_symm (sz : Nat) :
    ∀ {x y : Nat}, (x + sz ≤ y ∨ y + sz ≤ x) → (y + sz ≤ x ∨ x + sz ≤ y) := by
  intro x y hxy
  omega

/-- Running the `clean()` loop on a registry that holds exactly the chunks
`l`, with the global cache holding exactly the chunks `c0`, all pairwise
disjoint: the loop terminates in the state `cleanList g l`, every registry
chunk has been pushed onto the cache (head order reversed), the free-chunk
count has grown by `l.length`, and the counters, heap pointer and
created-chunk count are untouched. -/
lemma clean_spec (stride : Nat) :
    ∀ (l c0 : List Nat) (g : GlobalState) (ch : Nat),
      PtrList g.mem stride ch l → PtrList g.mem 0 g.gHead c0 →
      ChunksApart (stride + 8) (l ++ c0) →
      CleanLoop stride ch g 0 (cleanList g l) ∧
        PtrList (cleanList g l).mem 0 (cleanList g l).gHead (l.reverse ++ c0) ∧
        (cleanList g l).nFree = g.nFree + (l.length : Int) ∧
        (cleanList g l).ints = g.ints ∧ (cleanList g l).hp = g.hp ∧
        (cleanList g l).nAlloc = g.nAlloc := by
  intro l
  induction l with
  | nil =>
    intro c0 g ch hreg hcache _
    cases hreg
    exact ⟨CleanLoop.nil g, by simpa using hcache, by simp [cleanList], rfl, rfl, rfl⟩
  | cons b rest ih =>
    intro c0 g ch hreg hcache hap
    cases hreg with
    | cons _ _ hb htail =>
      have hpw := List.pairwise_cons.mp hap.1
      have hbpos : 1 ≤ b := hap.2 b (List.mem_cons_self b _)
      have hrest_ne : ∀ b' ∈ rest, b' + stride ≠ b := by
        intro b' hb'
        have := hpw.1 b' (List.mem_append_left c0 hb')
        omega
      have hc0_ne : ∀ c ∈ c0, c + 0 ≠ b := by
        intro c hc
        have := hpw.1 c (List.mem_append_right rest hc)
        omega
      have htail1 : PtrList (deallocate_chunk b g).mem stride (g.mem (b + stride)) rest :=
        ptrList_upd g.mem stride b g.gHead _ rest htail hrest_ne
      have hcache1 : PtrList (deallocate_chunk b g).mem 0 g.gHead c0 :=
        ptrList_upd g.mem 0 b g.gHead _ c0 hcache hc0_ne
      have hcache2 : PtrList (deallocate_chunk b g).mem 0 (deallocate_chunk b g).gHead
          (b :: c0) := by
        refine PtrList.cons b c0 (by omega) ?_
        have hmb : (deallocate_chunk b g).mem (b + 0) = g.gHead := by
          simp [deallocate_chunk, upd]
        rw [hmb]
        exact hcache1
      have hap1 : ChunksApart (stride + 8) (rest ++ (b :: c0)) := by
        refine ⟨(List.pairwise_middle (chunksApart_symm (stride + 8))).mpr hap.1, ?_⟩
        intro x hx
        rcases List.mem_append.mp hx with hx | hx
        · exact hap.2 x (List.mem_cons_of_mem b (List.mem_append_left c0 hx))
        · rcases List.mem_cons.mp hx with rfl | hx
          · exact hbpos
          · exact hap.2 x (List.mem_cons_of_mem b (List.mem_append_right rest hx))
      obtain ⟨hcl, hpl, hnf, hints, hhp, hnal⟩ :=
        ih (b :: c0) (deallocate_chunk b g) (g.mem (b + stride)) htail1 hcache2 hap1
      have hclean_eq : cleanList g (b :: rest) = cleanList (deallocate_chunk b g) rest := rfl
      refine ⟨CleanLoop.step b g _ hb (hclean_eq ▸ hcl), ?_, ?_, ?_, ?_, ?_⟩
      · rw [hclean_eq, List.reverse_cons, List.append_assoc]
        exact hpl
      · rw [hclean_eq, hnf]
        simp [deallocate_chunk]
        ring
      · rw [hclean_eq, hints]
        rfl
      · rw [hclean_eq, hhp]
        rfl
      · rw [hclean_eq, hnal]
        rfl

lemma cleanLoop_gHead_ne (stride : Nat) (ch : Nat) (g : GlobalState) (ch' : Nat)
    (g' : GlobalState) (hcl : CleanLoop stride ch g ch' g')
    (hnz : ch ≠ 0 ∨ g.gHead ≠ 0) : g'.gHead ≠ 0 := by
  induction hcl with
  | nil g => exact hnz.elim (fun h => absurd rfl h) id
  | step ch g g2 hch _ ih =>
    exact ih (Or.inr (by simpa [deallocate_chunk] using hch))

/-! ### C7: `release()` with reference count 1 -/

/-- C7: if the group's counters are non-null (and distinct, as construction
makes them) and `refcount()` is 1, `release()` drains the whole chunk
registry into the global chunk cache (head order reversed, free-chunk count
up by the registry length), nulls the free-list head and the registry head,
resets `nof_allocs()` to 0 and `refcount()` back to 1, and keeps the same
counter storage allocated, leaving the group usable. -/
theorem release_resets_group (h : Handle) (g : GlobalState) (l c0 : List Nat)
    (hrc : h.refcountPtr ≠ 0) (hna : h.nofAllocsPtr ≠ 0)
    (hrn : h.refcountPtr ≠ h.nofAllocsPtr)
    (hone : refcountObs h g = 1)
    (hreg : PtrList g.mem (h.elsize * h.nof_elmts) h.chunk_head l)
    (hcache : PtrList g.mem 0 g.gHead c0)
    (hap : ChunksApart (h.elsize * h.nof_elmts + 8) (l ++ c0)) :
    ReleaseRel h g { h with pool_head := 0, chunk_head := 0 } (releaseList h g l) ∧
      refcountObs { h with pool_head := 0, chunk_head := 0 } (releaseList h g l) = 1 ∧
      nofAllocsObs { h with pool_head := 0, chunk_head := 0 } (releaseList h g l) = 0 ∧
      ({ h with pool_head := 0, chunk_head := 0 } : Handle).refcountPtr = h.refcountPtr ∧
      ({ h with pool_head := 0, chunk_head := 0 } : Handle).nofAllocsPtr = h.nofAllocsPtr ∧
      PtrList (releaseList h g l).mem 0 (releaseList h g l).gHead (l.reverse ++ c0) ∧
      (releaseList h g l).nFree = g.nFree + (l.length : Int) := by
  have h1 : g.ints h.refcountPtr = 1 := by simpa [refcountObs, hrc] using hone
  obtain ⟨hcl, hpl, hnf, hints, hhp, hnal⟩ :=
    clean_spec (h.elsize * h.nof_elmts) l c0
      { g with ints := updI g.ints h.refcountPtr (g.ints h.refcountPtr - 1) }
      h.chunk_head hreg hcache hap
  refine ⟨ReleaseRel.last h g _ hrc h1 hcl, ?_, ?_, rfl, rfl, hpl, ?_⟩
  · simp [releaseList, refcountObs, updI, hrc, hrn]
  · simp [releaseList, nofAllocsObs, updI, hna]
  · simpa [releaseList] using hnf

/-- Witness for C7 on the fresh four-block group (empty registry, empty
cache): `release()` leaves the group alive with `refcount() = 1` and
`nof_allocs() = 0`. -/
theorem release_resets_group_witness :
    ReleaseRel hFour gFour { hFour with pool_head := 0, chunk_head := 0 }
        (releaseList hFour gFour []) ∧
      refcountObs { hFour with pool_head := 0, chunk_head := 0 }
        (releaseList hFour gFour []) = 1 ∧
      nofAllocsObs { hFour with pool_head := 0, chunk_head := 0 }
        (releaseList hFour gFour []) = 0 ∧
      PtrList (releaseList hFour gFour []).mem 0 (releaseList hFour gFour []).gHead [] ∧
      (releaseList hFour gFour []).nFree = gFour.nFree := by
  obtain ⟨w1, w2, w3, _, _, w6, w7⟩ :=
    release_resets_group hFour gFour [] [] (by decide) (by decide) (by decide)
      (by decide) PtrList.nil PtrList.nil ⟨List.Pairwise.nil, by simp⟩
  exact ⟨w1, w2, w3, by simpa using w6, by simpa using w7⟩

/-! ### C6: chunk acquisition and cache reuse after destruction -/

lemma ptrList_cons_head (m : Nat → Nat) (stride hd b : Nat) (l : List Nat)
    (hpl : PtrList m stride hd (b :: l)) : hd = b ∧ b ≠ 0 := by
  cases hpl with
  | cons _ _ hb _ => exact ⟨rfl, hb⟩

/-- C6: `allocate_chunk()` pops the top cached buffer when the global chunk
cache is non-empty — decrementing the free-chunk count, leaving memory (no
zero-fill), the heap pointer and the created-chunk count untouched — and
when the cache is empty it takes `nof_elmts_*elsize_ + sizeof(char*)` fresh
bytes from the process heap, zero-fills them and increments the
created-chunk count; moreover, destroying the last handle of a group whose
registry is non-empty leaves the cache non-empty, so the next growth's
`allocate_chunk()` (any same-configuration handle) reuses a cached chunk
without touching the heap pointer or the created-chunk count. -/
theorem allocate_chunk_cache_or_heap :
    (∀ h g, g.gHead ≠ 0 →
        allocate_chunk h g =
          (g.gHead, { g with nFree := g.nFree - 1, gHead := g.mem g.gHead })) ∧
      (∀ h g, g.gHead = 0 →
        allocate_chunk h g =
          (g.hp, { g with hp := g.hp + (h.elsize * h.nof_elmts + 8),
                          nAlloc := g.nAlloc + 1,
                          mem := fun a =>
                            if g.hp ≤ a ∧ a < g.hp + (h.elsize * h.nof_elmts + 8) then 0
                            else g.mem a })) ∧
      ∀ h g g' b l, h.refcountPtr ≠ 0 → g.ints h.refcountPtr = 1 →
        PtrList g.mem (h.elsize * h.nof_elmts) h.chunk_head (b :: l) →
        DtorRel h g g' →
        g'.gHead ≠ 0 ∧ ∀ h2, (allocate_chunk h2 g').1 = g'.gHead ∧
          (allocate_chunk h2 g').2.nAlloc = g'.nAlloc ∧
          (allocate_chunk h2 g').2.hp = g'.hp ∧
          (allocate_chunk h2 g').2.mem = g'.mem := by
  refine ⟨?_, ?_, ?_⟩
  · intro h g hgh
    simp [allocate_chunk, hgh]
  · intro h g hgh
    simp [allocate_chunk, hgh]
  · intro h g g' b l hrc hone hreg hdt
    have hch : h.chunk_head ≠ 0 := by
      obtain ⟨heq, hb⟩ := ptrList_cons_head _ _ _ _ _ hreg
      omega
    cases hdt with
    | null h0 => exact absurd h0 hrc
    | dec hrc2 hne => exact absurd hone hne
    | last gx hrc2 hone2 hcl =>
      have hgh : g'.gHead ≠ 0 := cleanLoop_gHead_ne _ _ _ _ _ hcl (Or.inl hch)
      exact ⟨hgh, fun h2 => by simp [allocate_chunk, hgh]⟩

/-- Handle state after one `allocate(1)` on the fresh four-block group: its
registry holds the single chunk at address 9. -/
def hAlloc1 : Handle := ((allocRun 1 hFour gFour).toOption.getD ([], hFour, gFour)).2.1

/-- Global state after one `allocate(1)` on the fresh four-block group. -/
def gAlloc1 : GlobalState := ((allocRun 1 hFour gFour).toOption.getD ([], hFour, gFour)).2.2

/-- `gAlloc1` after the destructor's reference-count decrement. -/
def gDec1 : GlobalState :=
  { gAlloc1 with
    ints := updI gAlloc1.ints hAlloc1.refcountPtr (gAlloc1.ints hAlloc1.refcountPtr - 1) }

/-- Global state after the last handle of that group is destroyed: the
chunk at 9 has been retired to the global chunk cache. -/
def gRetired : GlobalState := deallocate_chunk 9 gDec1

/-- Witness for C6: after the last-handle destruction the cache is
non-empty and `allocate_chunk` reuses it without touching the heap pointer,
the created-chunk count or memory; and on the empty cache it carves fresh
zero-filled heap bytes. -/
theorem allocate_chunk_cache_or_heap_witness :
    gRetired.gHead ≠ 0 ∧
      (allocate_chunk hFour gRetired).1 = gRetired.gHead ∧
      (allocate_chunk hFour gRetired).2.nAlloc = gRetired.nAlloc ∧
      (allocate_chunk hFour gRetired).2.hp = gRetired.hp ∧
      (allocate_chunk hFour gRetired).2.mem = gRetired.mem ∧
      allocate_chunk hFour gFour =
        (gFour.hp,
         { gFour with hp := gFour.hp + (hFour.elsize * hFour.nof_elmts + 8),
                      nAlloc := gFour.nAlloc + 1,
                      mem := fun a =>
                        if gFour.hp ≤ a ∧ a < gFour.hp + (hFour.elsize * hFour.nof_elmts + 8)
                        then 0 else gFour.mem a }) := by
  have hreg : PtrList gAlloc1.mem (hAlloc1.elsize * hAlloc1.nof_elmts)
      hAlloc1.chunk_head [9] :=
    PtrList.cons 9 [] (by decide) PtrList.nil
  have hdt : DtorRel hAlloc1 gAlloc1 gRetired :=
    DtorRel.last gAlloc1 gRetired (by decide) (by decide)
      (CleanLoop.step 9 gDec1 gRetired (by decide) (CleanLoop.nil gRetired))
  obtain ⟨w1, wfun⟩ :=
    allocate_chunk_cache_or_heap.2.2 hAlloc1 gAlloc1 gRetired 9 [] (by decide) (by decide)
      hreg hdt
  obtain ⟨w2, w3, w4, w5⟩ := wfun hFour
  exact ⟨w1, w2, w3, w4, w5, allocate_chunk_cache_or_heap.2.1 hFour gFour (by decide)⟩

/-! ### C5: reference count tracks the number of sharing handles -/

lemma sharedGroup_inv (n : Nat) (h : Handle) (g : GlobalState)
    (hsg : SharedGroup n h g) :
    h.refcountPtr ≠ 0 ∧ h.refcountPtr ≠ h.nofAllocsPtr ∧
      g.ints h.refcountPtr = (n : Int) ∧ 1 ≤ n := by
  induction hsg with
  | init s nofe al g0 hhp =>
    refine ⟨by simp [fb_alloc_independent]; omega, by simp [fb_alloc_independent], ?_,
      Nat.le_refl 1⟩
    simp [fb_alloc_independent, updI]
  | share n h g s _ hsz ih =>
    obtain ⟨hr, hrn, hint, hn⟩ := ih
    refine ⟨?_, ?_, ?_, by omega⟩
    · simpa [fb_alloc_sharing, hsz] using hr
    · simpa [fb_alloc_sharing, hsz] using hrn
    · simp [fb_alloc_sharing, hsz, updI, hint]
  | destroy n h g g' _ hdt ih =>
    obtain ⟨hr, hrn, hint, _⟩ := ih
    cases hdt with
    | null h0 => exact absurd h0 hr
    | dec hrc2 hne =>
      refine ⟨hr, hrn, ?_, by omega⟩
      simp [updI, hint]
      ring
    | last gx hrc2 hone2 hcl =>
      rw [hint] at hone2
      omega

/-- C5: along any sequence of handle-lifetime operations on a group with
non-null counters, `refcount()` equals the number of live handles currently
sharing the group (hence it is never negative); constructing a sharing view
whose computed block size equals the source's raises it by exactly one, and
destroying one of at least two sharing handles lowers it by exactly one
(destroying the final handle frees the counters, so no live handle remains
to observe them). -/
theorem refcount_tracks_handles (n : Nat) (h : Handle) (g : GlobalState)
    (hsg : SharedGroup n h g) :
    refcountObs h g = (n : Int) ∧ 0 ≤ refcountObs h g ∧
      (∀ s, calcElsize s h.alignment = h.elsize →
        refcountObs (fb_alloc_sharing s h g false false).1
          (fb_alloc_sharing s h g false false).2 = (n : Int) + 1) ∧
      ∀ g', 2 ≤ n → DtorRel h g g' → refcountObs h g' = (n : Int) - 1 := by
  obtain ⟨hr, hrn, hint, hn⟩ := sharedGroup_inv n h g hsg
  have hobs : refcountObs h g = (n : Int) := by simp [refcountObs, hr, hint]
  refine ⟨hobs, by rw [hobs]; omega, ?_, ?_⟩
  · intro s hsz
    simp [fb_alloc_sharing, hsz, refcountObs, hr, updI, hint]
  · intro g' hn2 hdt
    cases hdt with
    | null h0 => exact absurd h0 hr
    | dec hrc2 hne =>
      simp [refcountObs, hr, updI, hint]
    | last gx hrc2 hone2 hcl =>
      rw [hint] at hone2
      omega

/-- The sharing view of `hFour` with equal computed block size. -/
def hShare : Handle := (fb_alloc_sharing 8 hFour gFour false false).1

/-- The state after constructing `hShare`. -/
def gShare : GlobalState := (fb_alloc_sharing 8 hFour gFour false false).2

/-- Witness for C5: the fresh group observes `refcount() = 1`; after one
equal-size sharing construction both live handles observe 2; destroying one
of the two brings the observation back to 1. -/
theorem refcount_tracks_handles_witness :
    refcountObs hFour gFour = 1 ∧ 0 ≤ refcountObs hFour gFour ∧
      refcountObs hShare gShare = 2 ∧
      refcountObs hShare
        { gShare with
          ints := updI gShare.ints hShare.refcountPtr
            (gShare.ints hShare.refcountPtr - 1) } = 1 := by
  have hsg1 : SharedGroup 1 hFour gFour := SharedGroup.init 8 4 8 gInit (by decide)
  have hsg2 : SharedGroup 2 hShare gShare :=
    SharedGroup.share 1 hFour gFour 8 hsg1 (by decide)
  obtain ⟨w1, w2, _, _⟩ := refcount_tracks_handles 1 hFour gFour hsg1
  obtain ⟨w3, _, _, w4⟩ := refcount_tracks_handles 2 hShare gShare hsg2
  refine ⟨w1, w2, w3, ?_⟩
  have hdec : DtorRel hShare gShare
      { gShare with
        ints := updI gShare.ints hShare.refcountPtr
          (gShare.ints hShare.refcountPtr - 1) } :=
    DtorRel.dec gShare (by decide) (by decide)
  have := w4 _ (by omega) hdec
  simpa using this

/-! ### C8: the debug containment check -/

lemma checkLoop_det (es nof : Nat) (m : Nat → Nat) (pob : Nat) :
    ∀ ptr b1, CheckLoop es nof m pob ptr b1 →
      ∀ b2, CheckLoop es nof m pob ptr b2 → b1 = b2 := by
  intro ptr b1 h1
  induction h1 with
  | done =>
    intro b2 h2
    cases h2 with
    | done => rfl
    | found _ hne _ _ => exact absurd rfl hne
    | miss _ _ hne _ _ => exact absurd rfl hne
  | found ptr hne hle hge =>
    intro b2 h2
    cases h2 with
    | done => exact absurd rfl hne
    | found _ _ _ _ => rfl
    | miss _ _ _ hnr _ => exact absurd ⟨hle, hge⟩ hnr
  | miss ptr b hne hnr _ ih =>
    intro b2 h2
    cases h2 with
    | done => exact absurd rfl hne
    | found _ _ hle hge => exact absurd ⟨hle, hge⟩ hnr
    | miss _ _ _ _ htail2 => exact ih _ htail2

/-- C8 amended: `check(p)` returns `false` exactly when `p` lies outside
the block span `[base, base + (nof_elmts_-1)*elsize_]` of every chunk in
the group's registry; a pointer never returned by `allocate(1)` is only
guaranteed to fail the check when it lies outside all those spans — the
check is a span test, not a membership test of returned blocks. -/
theorem check_false_outside_chunks (es nof : Nat) (m : Nat → Nat) (p ch : Nat)
    (l : List Nat) (hreg : PtrList m (es * nof) ch l)
    (hout : ∀ b ∈ l, ¬ (b ≤ p ∧ p ≤ b + (nof - 1) * es)) :
    CheckLoop es nof m p ch false := by
  induction hreg with
  | nil => exact CheckLoop.done
  | cons b rest hb _ ih =>
    exact CheckLoop.miss b false hb (hout b (List.mem_cons_self b rest))
      (ih fun b' hb' => hout b' (List.mem_cons_of_mem b hb'))

/-- Witness for the amended C8: on the one-chunk group (chunk at 9, block
span `[9, 33]`), the pointer 100 lies outside the span and the check loop
rejects it. -/
theorem check_false_outside_chunks_witness :
    CheckLoop 8 4 gAlloc1.mem 100 hAlloc1.chunk_head false :=
  check_false_outside_chunks 8 4 gAlloc1.mem 100 hAlloc1.chunk_head [9]
    (PtrList.cons 9 [] (by decide) PtrList.nil)
    (by intro b hb; simp at hb; omega)

/-- C8 as stated is false: on the group that performed exactly one
`allocate(1)` (which returned 9, the only address ever returned), the
pointer 10 was never returned by `allocate(1)`, yet `check(10)` accepts it
(returns `true`, not `false`), because 10 falls inside the head chunk's
block span `[9, 9 + 3*8]`. -/
theorem check_accepts_never_returned_pointer :
    (allocRun 1 hFour gFour).toOption.map (fun r => r.1) = some [9] ∧
      (10 : Nat) ≠ 9 ∧
      CheckLoop 8 4 gAlloc1.mem 10 hAlloc1.chunk_head true ∧
      ¬ CheckLoop 8 4 gAlloc1.mem 10 hAlloc1.chunk_head false := by
  have hfound : CheckLoop 8 4 gAlloc1.mem 10 hAlloc1.chunk_head true :=
    CheckLoop.found 9 (by decide) (by decide) (by decide)
  refine ⟨?_, by decide, hfound, ?_⟩
  · simp [allocRun, fbAllocate, fbGrow, allocate_chunk, hFour, gFour, fb_alloc_independent,
      gInit, duffLinkWrites, duffLoop, duffRounds, applyWrites, upd, updI, calcElsize,
      alignSize, Except.toOption]
  · intro hfalse
    exact absurd (checkLoop_det 8 4 gAlloc1.mem 10 hAlloc1.chunk_head true hfound false hfalse)
      (by decide)
